import Mathlib

/-!
Verification development for the `utils-random` library.

The JavaScript source is embedded shallowly:

* JS numbers that hold 32-bit integer patterns are modelled as `ℤ` (the
  exact value of the IEEE double, which is exact for integers below `2^53`);
  the coercions performed by JS bitwise operators (`ToInt32` / `ToUint32`)
  are made explicit through `u32` / `asInt32`.
* JS numbers that hold 32-bit fractions are modelled as `ℚ`; all fraction
  arithmetic performed by the library on dyadic rationals of the form
  `k / 2^32` is exact in IEEE doubles, so `ℚ` agrees with the source there.
* The stateful raw-value source (`randomUint32Fn` etc.) is modelled as a
  stream `Nat → _` of draw values together with an index of the next draw;
  the potentially endless rejection loop takes explicit fuel and returns
  `none` when the fuel runs out (modelling non-termination).
-/

namespace UtilsRandom

/-- Unsigned 32-bit pattern of a JS integer-valued number: the `ToUint32`
conversion `x >>> 0` of ECMAScript, i.e. the value modulo `2^32`. -/
def u32 (x : ℤ) : Nat := (x % (2 ^ 32 : ℤ)).toNat

/-- Reinterpret an unsigned 32-bit pattern as a signed (two's-complement)
32-bit integer, the way `ToInt32` does. -/
def asInt32 (p : Nat) : ℤ := if p < 2 ^ 31 then (p : ℤ) else (p : ℤ) - 2 ^ 32

/-- The JS expression `x | 0`: truncation of an integer-valued number to a
signed 32-bit integer. -/
def jsToInt32 (x : ℤ) : ℤ := asInt32 (u32 x)

/-- The JS expression `a ^ b` on integer-valued numbers. -/
def jsXor (a b : ℤ) : ℤ := asInt32 (u32 a ^^^ u32 b)

/-- The JS expression `a | b` on integer-valued numbers. -/
def jsOr (a b : ℤ) : ℤ := asInt32 (u32 a ||| u32 b)

/-- The JS expression `a & b` on integer-valued numbers. -/
def jsAnd (a b : ℤ) : ℤ := asInt32 (u32 a &&& u32 b)

/-- The JS expression `a << k` (32-bit shift) on integer-valued numbers. -/
def jsShl (a : ℤ) (k : Nat) : ℤ := asInt32 ((u32 a <<< k) % 2 ^ 32)

/-- The JS expression `a >>> k`: logical shift of the 32-bit pattern,
returned as a (nonnegative) number. -/
def jsShrU (a : ℤ) (k : Nat) : ℤ := ((u32 a >>> k : Nat) : ℤ)

/-- The JS call `Math.imul(a, b)`: the low 32 bits of the integer product,
as a signed 32-bit integer. -/
def jsImul (a b : ℤ) : ℤ := asInt32 ((u32 a * u32 b) % 2 ^ 32)

/-!
## The unbiased bounded sampler

Embeds `unbiasedRandomUint32FromRange` (src/unnamed/part_003, lines
100-169).  The mask loop

```
let temp = range - 1
while (temp > 0) {
  mask = (mask << 1) | 1
  temp = temp >>> 1
}
mask = mask >>> 0
```

is `maskLoop (range - 1) 0`; `mask` is tracked directly as its unsigned
32-bit pattern (the final `>>> 0` makes the JS value coincide with it).
-/

/-- The mask-building loop of `unbiasedRandomUint32FromRange`.  `temp` is a
nonnegative integer throughout in the source (`range ≥ 1` there), so it is
a `Nat` here; `temp >>> 1` is the logical shift and `(mask << 1) | 1`
wraps at 32 bits exactly as the JS `<<` does. -/
def maskLoop (temp mask : Nat) : Nat :=
  if temp > 0 then maskLoop (temp >>> 1) ((mask <<< 1 ||| 1) % 2 ^ 32)
  else mask
termination_by temp
decreasing_by
  omega

/-- One round of the do-while rejection loop: draw `value`, mask it
(`(value & mask) >>> 0`), accept if it is below `range`, otherwise redraw.
`idx` is the index of the next unconsumed draw; the result carries the
accepted value together with the total number of draws consumed.  `fuel`
bounds the number of rounds; `none` models non-termination. -/
def rejectionLoop (range mask : Nat) (draws : Nat → ℤ) : Nat → Nat → Option (Nat × Nat)
  | 0, _ => none
  | fuel + 1, idx =>
    let value := draws idx
    let randomValue := u32 value &&& mask
    if randomValue ≥ range then rejectionLoop range mask draws fuel (idx + 1)
    else some (randomValue, idx + 1)

/-- Embedding of `unbiasedRandomUint32FromRange(range, randomUint32Fn)`
(src/unnamed/part_003, lines 100-169).  Returns the sampled value paired
with the number of raw draws consumed, or `none` if the rejection loop
exceeds `fuel` rounds. -/
def unbiasedRandomUint32FromRange (range : Nat) (draws : Nat → ℤ) (fuel : Nat) :
    Option (Nat × Nat) :=
  if range = 1 then some (0, 0)
  else rejectionLoop range (maskLoop (range - 1) 0) draws fuel 0

/-- A draw stream reading from a finite list (out-of-list draws return 0;
they are never reached in the scenarios below). -/
def drawsOf (l : List ℤ) : Nat → ℤ := fun i => l.getD i 0

/-! ### Facts about the mask loop -/

lemma maskLoop_zero (mask : Nat) : maskLoop 0 mask = mask := by
  rw [maskLoop]
  simp

lemma maskLoop_pos (temp mask : Nat) (h : 0 < temp) :
    maskLoop temp mask = maskLoop (temp >>> 1) ((mask <<< 1 ||| 1) % 2 ^ 32) := by
  rw [maskLoop]
  simp [h]

lemma shiftRight_one_eq (t : Nat) : t >>> 1 = t / 2 := by
  have h0 := Nat.shiftRight_succ t 0
  simpa using h0

lemma two_mul_lor_one (m : Nat) : 2 * m ||| 1 = 2 * m + 1 := by
  have h := Nat.lor_bit false m true 0
  simpa [Nat.bit_val] using h

lemma mask_step (k : Nat) (hk : k + 1 ≤ 32) :
    ((2 ^ k - 1) <<< 1 ||| 1) % 2 ^ 32 = 2 ^ (k + 1) - 1 := by
  have h1 : (2 ^ k - 1) <<< 1 = 2 * (2 ^ k - 1) := by
    rw [Nat.shiftLeft_eq]
    ring
  have hpow : 1 ≤ 2 ^ k := Nat.one_le_two_pow
  have h2 : 2 * (2 ^ k - 1) ||| 1 = 2 * (2 ^ k - 1) + 1 := two_mul_lor_one _
  have h3 : 2 * (2 ^ k - 1) + 1 = 2 ^ (k + 1) - 1 := by
    have : 2 ^ (k + 1) = 2 * 2 ^ k := by ring
    omega
  have h4 : 2 ^ (k + 1) - 1 < 2 ^ 32 := by
    have : 2 ^ (k + 1) ≤ 2 ^ 32 := Nat.pow_le_pow_right (by omega) hk
    omega
  rw [h1, h2, h3, Nat.mod_eq_of_lt h4]

lemma size_half (n : Nat) (h : 0 < n) : Nat.size (n / 2) + 1 = Nat.size n := by
  have hd := Nat.bit_decomp n
  have hne : Nat.bit n.bodd n.div2 ≠ 0 := by
    rw [hd]
    omega
  have hs := Nat.size_bit hne
  rw [hd, Nat.div2_val] at hs
  omega

/-- The mask loop started on accumulator `2^k - 1` yields `2^(size t + k) - 1`
whenever the result fits in 32 bits. -/
lemma maskLoop_eq (t : Nat) : ∀ k, Nat.size t + k ≤ 32 →
    maskLoop t (2 ^ k - 1) = 2 ^ (Nat.size t + k) - 1 := by
  induction t using Nat.strong_induction_on with
  | _ t IH =>
    intro k hk
    rcases Nat.eq_zero_or_pos t with h0 | hpos
    · subst h0
      simp [maskLoop_zero, Nat.size_zero]
    · rw [maskLoop_pos _ _ hpos]
      have hsz : Nat.size (t / 2) + 1 = Nat.size t := size_half t hpos
      have hs1 : 0 < Nat.size t := Nat.size_pos.mpr hpos
      have hstep : ((2 ^ k - 1) <<< 1 ||| 1) % 2 ^ 32 = 2 ^ (k + 1) - 1 :=
        mask_step k (by omega)
      rw [shiftRight_one_eq, hstep]
      have hrec := IH (t / 2) (by omega) (k + 1) (by omega)
      rw [hrec]
      have hexp : Nat.size (t / 2) + (k + 1) = Nat.size t + k := by omega
      rw [hexp]

/-- The computed mask, in closed form: `2^(size (range - 1)) - 1`. -/
lemma maskLoop_closed (range : Nat) (h2 : range ≤ 2 ^ 32) :
    maskLoop (range - 1) 0 = 2 ^ Nat.size (range - 1) - 1 := by
  have hsz : Nat.size (range - 1) ≤ 32 := by
    rw [Nat.size_le]
    omega
  have h := maskLoop_eq (range - 1) 0 (by omega)
  simpa using h

/-! ### Facts about the rejection loop -/

/-- A successful run of the rejection loop returns the masked form of the
final draw, that masked form is below `range`, and every earlier draw was
rejected because its masked form was at least `range`. -/
lemma rejectionLoop_spec (range mask : Nat) (draws : Nat → ℤ) :
    ∀ fuel idx v k, rejectionLoop range mask draws fuel idx = some (v, k) →
      idx < k ∧ v = u32 (draws (k - 1)) &&& mask ∧ v < range ∧
        ∀ j, idx ≤ j → j < k - 1 → range ≤ u32 (draws j) &&& mask := by
  intro fuel
  induction fuel with
  | zero =>
    intro idx v k h
    simp [rejectionLoop] at h
  | succ fuel IH =>
    intro idx v k h
    rw [rejectionLoop] at h
    by_cases hc : u32 (draws idx) &&& mask ≥ range
    · simp only [hc, if_pos] at h
      obtain ⟨h1, h2, h3, h4⟩ := IH (idx + 1) v k h
      refine ⟨by omega, h2, h3, ?_⟩
      intro j hj1 hj2
      rcases Nat.eq_or_lt_of_le hj1 with rfl | hlt
      · exact hc
      · exact h4 j (by omega) hj2
    · simp only [hc, if_neg, if_false, Option.some.injEq, Prod.mk.injEq] at h
      obtain ⟨rfl, rfl⟩ := h
      refine ⟨by omega, by simp, by omega, ?_⟩
      intro j hj1 hj2
      omega

/-- The mask at `range = 127` is `127`. -/
lemma maskLoop_126 : maskLoop 126 0 = 127 := by
  have h := maskLoop_closed 127 (by norm_num)
  have hlo : 6 < Nat.size 126 := Nat.lt_size.mpr (by norm_num)
  have hhi : Nat.size 126 ≤ 7 := Nat.size_le.mpr (by norm_num)
  have hsz : Nat.size 126 = 7 := by omega
  norm_num [hsz] at h
  exact h

/-- Evaluation of the sampler on the first concrete scenario of the spec:
`range = 127`, raw draws `[254, 13]`. -/
lemma sampler_scn1 :
    unbiasedRandomUint32FromRange 127 (drawsOf [254, 13]) 2 = some (126, 1) := by
  have h0 : unbiasedRandomUint32FromRange 127 (drawsOf [254, 13]) 2 =
      rejectionLoop 127 (maskLoop 126 0) (drawsOf [254, 13]) 2 0 := rfl
  rw [h0, maskLoop_126]
  decide

/-- Evaluation of the sampler on the rejection scenario of the spec:
`range = 127`, raw draws `[255, 13]`. -/
lemma sampler_scn2 :
    unbiasedRandomUint32FromRange 127 (drawsOf [255, 13]) 2 = some (13, 2) := by
  have h0 : unbiasedRandomUint32FromRange 127 (drawsOf [255, 13]) 2 =
      rejectionLoop 127 (maskLoop 126 0) (drawsOf [255, 13]) 2 0 := rfl
  rw [h0, maskLoop_126]
  decide

/-- C1.  For every range in `(1, 2^32]` and every raw draw sequence, the
rejection loop of `unbiasedRandomUint32FromRange` accepts a drawn value
exactly when its mask-ANDed form is below `range` (every earlier draw has
masked form `≥ range`), so every returned value lies in `[0, range)`; in
particular with `range = 127` and raw draws `[254, 13]` it returns `126`
after one draw, and with raw draws `[255, 13]` it rejects the first draw
and returns `13` after two draws. -/
theorem claim1_sampler_rejection (range : Nat) (h1 : 1 < range) (h2 : range ≤ 2 ^ 32)
    (draws : Nat → ℤ) (fuel v k : Nat)
    (hres : unbiasedRandomUint32FromRange range draws fuel = some (v, k)) :
    (v < range ∧ 1 ≤ k ∧ v = u32 (draws (k - 1)) &&& maskLoop (range - 1) 0 ∧
      ∀ j, j < k - 1 → range ≤ u32 (draws j) &&& maskLoop (range - 1) 0) ∧
    unbiasedRandomUint32FromRange 127 (drawsOf [254, 13]) 2 = some (126, 1) ∧
    unbiasedRandomUint32FromRange 127 (drawsOf [255, 13]) 2 = some (13, 2) := by
  refine ⟨?_, sampler_scn1, sampler_scn2⟩
  rw [unbiasedRandomUint32FromRange, if_neg (by omega)] at hres
  obtain ⟨ha, hb, hc, hd⟩ := rejectionLoop_spec range (maskLoop (range - 1) 0) draws fuel 0 v k hres
  exact ⟨hc, by omega, hb, fun j hj => hd j (by omega) hj⟩

/-- Witness for C1: the accepted value of the first concrete scenario is
the masked form of the first draw. -/
theorem claim1_witness :
    126 = u32 (drawsOf [254, 13] 0) &&& maskLoop 126 0 :=
  (claim1_sampler_rejection 127 (by decide) (by decide) (drawsOf [254, 13]) 2 126 1
    sampler_scn1).1.2.2.1

/-- C2.  For every range in `(1, 2^32]`, the mask computed by the iterative
bit-shifting loop equals the smallest value of the form `2^n - 1` that is
at least `range - 1`; at the boundary `range = 2^32` the mask equals
`2^32 - 1`. -/
theorem claim2_mask_smallest (range : Nat) (h1 : 1 < range) (h2 : range ≤ 2 ^ 32) :
    (maskLoop (range - 1) 0 = 2 ^ Nat.size (range - 1) - 1) ∧
    range - 1 ≤ maskLoop (range - 1) 0 ∧
    (∀ n, range - 1 ≤ 2 ^ n - 1 → maskLoop (range - 1) 0 ≤ 2 ^ n - 1) ∧
    (range = 2 ^ 32 → maskLoop (range - 1) 0 = 2 ^ 32 - 1) := by
  have hclosed := maskLoop_closed range h2
  have hself : range - 1 < 2 ^ Nat.size (range - 1) := Nat.lt_size_self (range - 1)
  refine ⟨hclosed, by omega, ?_, ?_⟩
  · intro n hn
    have hpow : 1 ≤ 2 ^ n := Nat.one_le_two_pow
    have hlt : range - 1 < 2 ^ n := by omega
    have hle : Nat.size (range - 1) ≤ n := Nat.size_le.mpr hlt
    have := Nat.pow_le_pow_right (show 1 ≤ 2 by omega) hle
    omega
  · intro hr
    subst hr
    have hlo : 31 < Nat.size (2 ^ 32 - 1) := Nat.lt_size.mpr (by norm_num)
    have hhi : Nat.size (2 ^ 32 - 1) ≤ 32 := Nat.size_le.mpr (by omega)
    have hsz : Nat.size (2 ^ 32 - 1) = 32 := by omega
    rw [hclosed, hsz]

/-- Witness for C2: instantiation at `range = 127` (the spec scenario,
where the mask is `127`). -/
theorem claim2_witness :
    126 ≤ maskLoop 126 0 :=
  (claim2_mask_smallest 127 (by decide) (by decide)).2.1

/-!
## Ranged generator wrappers

Embeds `unbiasedRandomFract32`, `unbiasedRandomInt32`, `unbiasedRandomUint32`
(src/unnamed/part_003, lines 15-98) and the assertions of
src/src/shared/assertions.ts.  The source throws plain `Error` objects
(`throw new Error(...)`); the embedding distinguishes the JS `Error` and
`RangeError` classes so that statements about the error class are
expressible.  Bounds for the fraction and unsigned wrappers are `ℚ`
(JS numbers; the unsigned wrapper applies `Math.floor`); bounds for the
signed wrapper, which performs exact integer arithmetic, are `ℤ`.
-/

/-- A thrown JS error value: its class (`Error` or `RangeError`) and
message. -/
inductive JsError where
  | plain (msg : String)
  | range (msg : String)
deriving DecidableEq

/-- Predicate: the computation threw a `RangeError`. -/
def threwRangeError {α : Type} : Except JsError α → Bool
  | .error (.range _) => true
  | _ => false

/-- Predicate: the computation threw some error. -/
def threwError {α : Type} : Except JsError α → Bool
  | .error _ => true
  | _ => false

/-- Embedding of `assertSafeRangeFract32` (src/src/shared/assertions.ts,
lines 10-22): `none` when the assertion passes, otherwise the thrown
error. -/
def assertSafeRangeFract32 (minInclusive maxExclusive : ℚ) : Option JsError :=
  if minInclusive < 0 then some (.plain "Minimum value must be at least 0.")
  else if maxExclusive > 1 then some (.plain "Maximum value must be less than 1.")
  else if maxExclusive ≤ minInclusive then
    some (.plain "Maximum value must be greater than the given minimum value.")
  else none

/-- Embedding of `assertSafeRangeInt32` (src/src/shared/assertions.ts,
lines 24-36). -/
def assertSafeRangeInt32 (minInclusive maxExclusive : ℤ) : Option JsError :=
  if minInclusive < -(2 ^ 31) then some (.plain "Minimum value must be at least -2147483648.")
  else if maxExclusive > 2 ^ 31 then some (.plain "Maximum value must be less than 2147483648.")
  else if maxExclusive ≤ minInclusive then
    some (.plain "Maximum value must be greater than the given minimum value.")
  else none

/-- Embedding of `assertSafeRangeUint32` (src/src/shared/assertions.ts,
lines 38-50). -/
def assertSafeRangeUint32 (minInclusive maxExclusive : ℚ) : Option JsError :=
  if minInclusive < 0 then some (.plain "Minimum value must be at least 0.")
  else if maxExclusive > 2 ^ 32 then
    some (.plain "Maximum value must be less than 4294967296.")
  else if maxExclusive ≤ minInclusive then
    some (.plain "Maximum value must be greater than the given minimum value.")
  else none

/-- Truncation toward zero of a rational (the implicit `ToUint32` /
`ToInt32` truncation step of JS bitwise coercions). -/
def ratTrunc (q : ℚ) : ℤ := if 0 ≤ q then ⌊q⌋ else -⌊-q⌋

/-- Embedding of `bitwiseFract32ToUint32` (src/src/shared/transformation/
numbers.ts): `(fract32 * 0x100000000) >>> 0`. -/
def bitwiseFract32ToUint32 (f : ℚ) : Nat := u32 (ratTrunc (f * 2 ^ 32))

/-- Embedding of `bitwiseUint32ToFract32`: `uint32 / 0x100000000`. -/
def bitwiseUint32ToFract32 (v : Nat) : ℚ := (v : ℚ) / 2 ^ 32

/-- Embedding of `unbiasedRandomFract32` (src/unnamed/part_003, lines
15-37).  The raw source is a stream of fraction draws; the result value is
paired with the number of raw draws consumed. -/
def unbiasedRandomFract32 (minInclusive maxExclusive : Option ℚ) (draws : Nat → ℚ)
    (fuel : Nat) : Except JsError (Option (ℚ × Nat)) :=
  match minInclusive, maxExclusive with
  | none, none => .ok (some (draws 0, 1))
  | _, _ =>
    let min := minInclusive.getD 0
    let max := maxExclusive.getD 1
    match assertSafeRangeFract32 min max with
    | some e => .error e
    | none =>
      let minUint32 := bitwiseFract32ToUint32 min
      let maxUint32 := if max = 1 then 2 ^ 32 else bitwiseFract32ToUint32 max
      match unbiasedRandomUint32FromRange (maxUint32 - minUint32)
          (fun i => (bitwiseFract32ToUint32 (draws i) : ℤ)) fuel with
      | none => .ok none
      | some (v, k) => .ok (some (min + bitwiseUint32ToFract32 v, k))

/-- Embedding of `unbiasedRandomInt32` (src/unnamed/part_003, lines
39-76).  The raw source is a stream of signed 32-bit draws; the sampler is
fed `randomInt32Fn() + 2^31`. -/
def unbiasedRandomInt32 (minInclusive maxExclusive : Option ℤ) (draws : Nat → ℤ)
    (fuel : Nat) : Except JsError (Option (ℤ × Nat)) :=
  match minInclusive, maxExclusive with
  | none, none => .ok (some (draws 0, 1))
  | _, _ =>
    let min := minInclusive.getD (-(2 ^ 31))
    let max := maxExclusive.getD (2 ^ 31)
    match assertSafeRangeInt32 min max with
    | some e => .error e
    | none =>
      let minUint32 := min + 2 ^ 31
      let maxUint32 := max + 2 ^ 31
      match unbiasedRandomUint32FromRange (maxUint32 - minUint32).toNat
          (fun i => draws i + 2 ^ 31) fuel with
      | none => .ok none
      | some (v, k) => .ok (some (jsToInt32 (min + v), k))

/-- Embedding of `unbiasedRandomUint32` (src/unnamed/part_003, lines
78-98).  The raw source is a stream of unsigned 32-bit draws (as
integer-valued JS numbers). -/
def unbiasedRandomUint32 (minInclusive maxExclusive : Option ℚ) (draws : Nat → ℤ)
    (fuel : Nat) : Except JsError (Option (ℤ × Nat)) :=
  match minInclusive, maxExclusive with
  | none, none => .ok (some (draws 0, 1))
  | _, _ =>
    let min := minInclusive.getD 0
    let max := maxExclusive.getD (2 ^ 32)
    match assertSafeRangeUint32 min max with
    | some e => .error e
    | none =>
      let rangeMin : ℤ := ⌊min⌋
      let rangeMax : ℤ := ⌊max⌋
      match unbiasedRandomUint32FromRange (rangeMax - rangeMin).toNat draws fuel with
      | none => .ok none
      | some (v, k) => .ok (some (rangeMin + (v : ℤ), k))

/-- C7.  For every ranged wrapper, when both bounds are omitted the wrapper
returns the raw generated value unmodified after exactly one raw-source
call, with no range validation and no sampler invocation. -/
theorem claim7_fast_path :
    (∀ (draws : Nat → ℚ) (fuel : Nat),
      unbiasedRandomFract32 none none draws fuel = .ok (some (draws 0, 1))) ∧
    (∀ (draws : Nat → ℤ) (fuel : Nat),
      unbiasedRandomInt32 none none draws fuel = .ok (some (draws 0, 1))) ∧
    (∀ (draws : Nat → ℤ) (fuel : Nat),
      unbiasedRandomUint32 none none draws fuel = .ok (some (draws 0, 1))) :=
  ⟨fun _ _ => rfl, fun _ _ => rfl, fun _ _ => rfl⟩

/-! ### Facts used for the minimal-range claim -/

lemma jsToInt32_of_range (x : ℤ) (h1 : -(2 ^ 31) ≤ x) (h2 : x < 2 ^ 31) :
    jsToInt32 x = x := by
  rw [jsToInt32, asInt32, u32]
  split <;> omega

lemma assertFract_none (mi me : ℚ) (h1 : 0 ≤ mi) (h2 : me ≤ 1) (h3 : mi < me) :
    assertSafeRangeFract32 mi me = none := by
  rw [assertSafeRangeFract32, if_neg (by linarith), if_neg (by linarith),
    if_neg (by linarith)]

lemma assertInt_none (mi me : ℤ) (h1 : -(2 ^ 31) ≤ mi) (h2 : me ≤ 2 ^ 31) (h3 : mi < me) :
    assertSafeRangeInt32 mi me = none := by
  rw [assertSafeRangeInt32, if_neg (by omega), if_neg (by omega), if_neg (by omega)]

lemma assertUint_none (mi me : ℚ) (h1 : 0 ≤ mi) (h2 : me ≤ 2 ^ 32) (h3 : mi < me) :
    assertSafeRangeUint32 mi me = none := by
  rw [assertSafeRangeUint32, if_neg (by linarith), if_neg (by linarith),
    if_neg (by linarith)]

lemma u32_of_nat (k : Nat) (h : k < 2 ^ 32) : u32 (k : ℤ) = k := by
  rw [u32]
  omega

lemma ratTrunc_natCast (k : Nat) : ratTrunc (k : ℚ) = (k : ℤ) := by
  rw [ratTrunc, if_pos (by positivity)]
  exact_mod_cast Int.floor_natCast k

/-- The sampler at `range = 1` returns `0` immediately, consuming no
draws, for every draw stream and fuel. -/
lemma sampler_range_one (draws : Nat → ℤ) (fuel : Nat) :
    unbiasedRandomUint32FromRange 1 draws fuel = some (0, 0) := rfl

/-- C3.  The sampler with `range = 1` returns `0` without consuming any
draw, and each ranged wrapper called with `maxExclusive` exactly one
representable unit above `minInclusive` returns `minInclusive` with zero
raw-source calls, for every draw stream and fuel. -/
theorem claim3_minimal_range :
    (∀ (draws : Nat → ℤ) (fuel : Nat),
      unbiasedRandomUint32FromRange 1 draws fuel = some (0, 0)) ∧
    (∀ (k : Nat), k < 2 ^ 32 → ∀ (draws : Nat → ℚ) (fuel : Nat),
      unbiasedRandomFract32 (some ((k : ℚ) / 2 ^ 32)) (some (((k : ℚ) + 1) / 2 ^ 32))
          draws fuel = .ok (some ((k : ℚ) / 2 ^ 32, 0))) ∧
    (∀ (m : ℤ), -(2 ^ 31) ≤ m → m + 1 ≤ 2 ^ 31 → ∀ (draws : Nat → ℤ) (fuel : Nat),
      unbiasedRandomInt32 (some m) (some (m + 1)) draws fuel = .ok (some (m, 0))) ∧
    (∀ (m : ℤ), 0 ≤ m → m + 1 ≤ 2 ^ 32 → ∀ (draws : Nat → ℤ) (fuel : Nat),
      unbiasedRandomUint32 (some (m : ℚ)) (some ((m : ℚ) + 1)) draws fuel =
        .ok (some (m, 0))) := by
  refine ⟨sampler_range_one, ?_, ?_, ?_⟩
  · intro k hk draws fuel
    have hmin : (0 : ℚ) ≤ (k : ℚ) / 2 ^ 32 := by positivity
    have hmax : ((k : ℚ) + 1) / 2 ^ 32 ≤ 1 := by
      rw [div_le_one (by positivity)]
      have h := Nat.succ_le_of_lt hk
      have h2 : ((k : ℚ) + 1) ≤ ((2 ^ 32 : Nat) : ℚ) := by exact_mod_cast h
      simpa using h2
    have hord : (k : ℚ) / 2 ^ 32 < ((k : ℚ) + 1) / 2 ^ 32 := by
      rw [div_lt_div_iff₀ (by norm_num) (by norm_num)]
      nlinarith [sq_nonneg ((2 : ℚ) ^ 32)]
    have hminU : bitwiseFract32ToUint32 ((k : ℚ) / 2 ^ 32) = k := by
      rw [bitwiseFract32ToUint32, div_mul_cancel₀ _ (by norm_num : (2 ^ 32 : ℚ) ≠ 0),
        ratTrunc_natCast, u32_of_nat k hk]
    have hassert := assertFract_none _ _ hmin hmax hord
    simp only [unbiasedRandomFract32, Option.getD_some, hassert, hminU]
    by_cases hcase : k + 1 = 2 ^ 32
    · have hmax1 : ((k : ℚ) + 1) / 2 ^ 32 = 1 := by
        have hc : ((k : ℚ) + 1) = 2 ^ 32 := by exact_mod_cast congrArg (Nat.cast : Nat → ℚ) hcase
        rw [hc]
        norm_num
      rw [if_pos hmax1]
      have hrange : 2 ^ 32 - k = 1 := by omega
      rw [hrange, sampler_range_one]
      simp [bitwiseUint32ToFract32]
    · have hmax1 : ((k : ℚ) + 1) / 2 ^ 32 ≠ 1 := by
        intro hcon
        rw [div_eq_one_iff_eq (by norm_num)] at hcon
        have hc : ((k + 1 : Nat) : ℚ) = ((2 ^ 32 : Nat) : ℚ) := by push_cast; linarith
        exact hcase (Nat.cast_injective hc)
      have hmaxU : bitwiseFract32ToUint32 (((k : ℚ) + 1) / 2 ^ 32) = k + 1 := by
        have hc : ((k : ℚ) + 1) = ((k + 1 : Nat) : ℚ) := by push_cast; ring
        rw [bitwiseFract32ToUint32, div_mul_cancel₀ _ (by norm_num : (2 ^ 32 : ℚ) ≠ 0),
          hc, ratTrunc_natCast, u32_of_nat (k + 1) (by omega)]
      rw [if_neg hmax1, hmaxU]
      have hrange : k + 1 - k = 1 := by omega
      rw [hrange, sampler_range_one]
      simp [bitwiseUint32ToFract32]
  · intro m h1 h2 draws fuel
    have hassert : assertSafeRangeInt32 m (m + 1) = none :=
      assertInt_none m (m + 1) h1 h2 (by omega)
    simp only [unbiasedRandomInt32, Option.getD_some, hassert]
    have hrange : (m + 1 + 2 ^ 31 - (m + 2 ^ 31)).toNat = 1 := by omega
    rw [hrange, sampler_range_one]
    simp [jsToInt32_of_range m h1 (by omega)]
  · intro m h1 h2 draws fuel
    have hc1 : (0 : ℚ) ≤ (m : ℚ) := by exact_mod_cast h1
    have hc2 : (m : ℚ) + 1 ≤ 2 ^ 32 := by
      have : ((m + 1 : ℤ) : ℚ) ≤ ((2 ^ 32 : ℤ) : ℚ) := by exact_mod_cast h2
      push_cast at this
      linarith
    have hassert : assertSafeRangeUint32 (m : ℚ) ((m : ℚ) + 1) = none :=
      assertUint_none _ _ hc1 hc2 (by linarith)
    simp only [unbiasedRandomUint32, Option.getD_some, hassert]
    have hf1 : ⌊(m : ℚ)⌋ = m := Int.floor_intCast m
    have hf2 : ⌊(m : ℚ) + 1⌋ = m + 1 := by
      have : ((m : ℚ) + 1) = ((m + 1 : ℤ) : ℚ) := by push_cast; ring
      rw [this, Int.floor_intCast]
    rw [hf1, hf2]
    have hrange : (m + 1 - m).toNat = 1 := by omega
    rw [hrange, sampler_range_one]
    simp

/-- Witness for C3: the wrappers at concrete minimal ranges return the
minimum with zero draws. -/
theorem claim3_witness :
    unbiasedRandomFract32 (some ((0 : ℚ) / 2 ^ 32)) (some (((0 : ℚ) + 1) / 2 ^ 32))
        (fun _ => 0) 3 = .ok (some ((0 : ℚ) / 2 ^ 32, 0)) ∧
    unbiasedRandomInt32 (some (-5)) (some (-5 + 1)) (drawsOf []) 3 = .ok (some (-5, 0)) ∧
    unbiasedRandomUint32 (some ((5 : ℤ) : ℚ)) (some (((5 : ℤ) : ℚ) + 1)) (drawsOf []) 3 =
      .ok (some (5, 0)) :=
  ⟨claim3_minimal_range.2.1 0 (by norm_num) (fun _ => 0) 3,
   claim3_minimal_range.2.2.1 (-5) (by norm_num) (by norm_num) (drawsOf []) 3,
   claim3_minimal_range.2.2.2 5 (by norm_num) (by norm_num) (drawsOf []) 3⟩

/-! ### Range validation (C4) -/

lemma assertFract_invalid (mi me : ℚ) (h : mi < 0 ∨ 1 < me ∨ me ≤ mi) :
    ∃ msg, assertSafeRangeFract32 mi me = some (.plain msg) := by
  rw [assertSafeRangeFract32]
  by_cases h1 : mi < 0
  · exact ⟨_, by rw [if_pos h1]⟩
  · rw [if_neg h1]
    by_cases h2 : me > 1
    · exact ⟨_, by rw [if_pos h2]⟩
    · rw [if_neg h2]
      have h3 : me ≤ mi := by
        rcases h with h | h | h
        · exact absurd h h1
        · exact absurd h h2
        · exact h
      exact ⟨_, by rw [if_pos h3]⟩

lemma assertInt_invalid (mi me : ℤ) (h : mi < -(2 ^ 31) ∨ 2 ^ 31 < me ∨ me ≤ mi) :
    ∃ msg, assertSafeRangeInt32 mi me = some (.plain msg) := by
  rw [assertSafeRangeInt32]
  by_cases h1 : mi < -(2 ^ 31)
  · exact ⟨_, by rw [if_pos h1]⟩
  · rw [if_neg h1]
    by_cases h2 : me > 2 ^ 31
    · exact ⟨_, by rw [if_pos h2]⟩
    · rw [if_neg h2]
      have h3 : me ≤ mi := by
        rcases h with h | h | h
        · exact absurd h h1
        · exact absurd h h2
        · exact h
      exact ⟨_, by rw [if_pos h3]⟩

lemma assertUint_invalid (mi me : ℚ) (h : mi < 0 ∨ 2 ^ 32 < me ∨ me ≤ mi) :
    ∃ msg, assertSafeRangeUint32 mi me = some (.plain msg) := by
  rw [assertSafeRangeUint32]
  by_cases h1 : mi < 0
  · exact ⟨_, by rw [if_pos h1]⟩
  · rw [if_neg h1]
    by_cases h2 : me > 2 ^ 32
    · exact ⟨_, by rw [if_pos h2]⟩
    · rw [if_neg h2]
      have h3 : me ≤ mi := by
        rcases h with h | h | h
        · exact absurd h h1
        · exact absurd h h2
        · exact h
      exact ⟨_, by rw [if_pos h3]⟩

/-- C4, corrected.  For every ranged-wrapper call whose supplied bounds
(after defaulting an omitted bound) have min below the domain floor, max
above the domain ceiling, or max ≤ min, an `Error` — a plain `Error`, not
the `RangeError` the claim names — is raised synchronously before the raw
source is invoked (the outcome is independent of the draw stream and
fuel); and no error is raised when the bounds are within the domain with
max > min. -/
theorem claim4_validation :
    (∀ (mi me : Option ℚ), ¬(mi = none ∧ me = none) →
      (mi.getD 0 < 0 ∨ 1 < me.getD 1 ∨ me.getD 1 ≤ mi.getD 0) →
      ∀ (d : Nat → ℚ) (f : Nat) (d2 : Nat → ℚ) (f2 : Nat),
        unbiasedRandomFract32 mi me d f = unbiasedRandomFract32 mi me d2 f2 ∧
        threwError (unbiasedRandomFract32 mi me d f) = true ∧
        threwRangeError (unbiasedRandomFract32 mi me d f) = false) ∧
    (∀ (mi me : Option ℚ), ¬(mi = none ∧ me = none) →
      0 ≤ mi.getD 0 → me.getD 1 ≤ 1 → mi.getD 0 < me.getD 1 →
      ∀ (d : Nat → ℚ) (f : Nat),
        threwError (unbiasedRandomFract32 mi me d f) = false) ∧
    (∀ (mi me : Option ℤ), ¬(mi = none ∧ me = none) →
      (mi.getD (-(2 ^ 31)) < -(2 ^ 31) ∨ 2 ^ 31 < me.getD (2 ^ 31) ∨
        me.getD (2 ^ 31) ≤ mi.getD (-(2 ^ 31))) →
      ∀ (d : Nat → ℤ) (f : Nat) (d2 : Nat → ℤ) (f2 : Nat),
        unbiasedRandomInt32 mi me d f = unbiasedRandomInt32 mi me d2 f2 ∧
        threwError (unbiasedRandomInt32 mi me d f) = true ∧
        threwRangeError (unbiasedRandomInt32 mi me d f) = false) ∧
    (∀ (mi me : Option ℤ), ¬(mi = none ∧ me = none) →
      -(2 ^ 31) ≤ mi.getD (-(2 ^ 31)) → me.getD (2 ^ 31) ≤ 2 ^ 31 →
      mi.getD (-(2 ^ 31)) < me.getD (2 ^ 31) →
      ∀ (d : Nat → ℤ) (f : Nat),
        threwError (unbiasedRandomInt32 mi me d f) = false) ∧
    (∀ (mi me : Option ℚ), ¬(mi = none ∧ me = none) →
      (mi.getD 0 < 0 ∨ 2 ^ 32 < me.getD (2 ^ 32) ∨ me.getD (2 ^ 32) ≤ mi.getD 0) →
      ∀ (d : Nat → ℤ) (f : Nat) (d2 : Nat → ℤ) (f2 : Nat),
        unbiasedRandomUint32 mi me d f = unbiasedRandomUint32 mi me d2 f2 ∧
        threwError (unbiasedRandomUint32 mi me d f) = true ∧
        threwRangeError (unbiasedRandomUint32 mi me d f) = false) ∧
    (∀ (mi me : Option ℚ), ¬(mi = none ∧ me = none) →
      0 ≤ mi.getD 0 → me.getD (2 ^ 32) ≤ 2 ^ 32 → mi.getD 0 < me.getD (2 ^ 32) →
      ∀ (d : Nat → ℤ) (f : Nat),
        threwError (unbiasedRandomUint32 mi me d f) = false) := by
  refine ⟨?_, ?_, ?_, ?_, ?_, ?_⟩
  · intro mi me hnn hinv d f d2 f2
    rcases mi with _ | mi <;> rcases me with _ | me
    · exact absurd ⟨rfl, rfl⟩ hnn
    all_goals
      simp only [Option.getD_none, Option.getD_some] at hinv
    all_goals
      obtain ⟨msg, hmsg⟩ := assertFract_invalid _ _ hinv
    all_goals
      simp only [unbiasedRandomFract32, Option.getD_none, Option.getD_some, hmsg]
    all_goals exact ⟨trivial, rfl, rfl⟩
  · intro mi me hnn hv1 hv2 hv3 d f
    rcases mi with _ | mi <;> rcases me with _ | me
    · exact absurd ⟨rfl, rfl⟩ hnn
    all_goals
      simp only [Option.getD_none, Option.getD_some] at hv1 hv2 hv3
    all_goals
      simp only [unbiasedRandomFract32, Option.getD_none, Option.getD_some,
        assertFract_none _ _ hv1 hv2 hv3]
    all_goals split <;> simp [threwError]
  · intro mi me hnn hinv d f d2 f2
    rcases mi with _ | mi <;> rcases me with _ | me
    · exact absurd ⟨rfl, rfl⟩ hnn
    all_goals
      simp only [Option.getD_none, Option.getD_some] at hinv
    all_goals
      obtain ⟨msg, hmsg⟩ := assertInt_invalid _ _ hinv
    all_goals
      simp only [unbiasedRandomInt32, Option.getD_none, Option.getD_some, hmsg]
    all_goals exact ⟨trivial, rfl, rfl⟩
  · intro mi me hnn hv1 hv2 hv3 d f
    rcases mi with _ | mi <;> rcases me with _ | me
    · exact absurd ⟨rfl, rfl⟩ hnn
    all_goals
      simp only [Option.getD_none, Option.getD_some] at hv1 hv2 hv3
    all_goals
      simp only [unbiasedRandomInt32, Option.getD_none, Option.getD_some,
        assertInt_none _ _ hv1 hv2 hv3]
    all_goals split <;> simp [threwError]
  · intro mi me hnn hinv d f d2 f2
    rcases mi with _ | mi <;> rcases me with _ | me
    · exact absurd ⟨rfl, rfl⟩ hnn
    all_goals
      simp only [Option.getD_none, Option.getD_some] at hinv
    all_goals
      obtain ⟨msg, hmsg⟩ := assertUint_invalid _ _ hinv
    all_goals
      simp only [unbiasedRandomUint32, Option.getD_none, Option.getD_some, hmsg]
    all_goals exact ⟨trivial, rfl, rfl⟩
  · intro mi me hnn hv1 hv2 hv3 d f
    rcases mi with _ | mi <;> rcases me with _ | me
    · exact absurd ⟨rfl, rfl⟩ hnn
    all_goals
      simp only [Option.getD_none, Option.getD_some] at hv1 hv2 hv3
    all_goals
      simp only [unbiasedRandomUint32, Option.getD_none, Option.getD_some,
        assertUint_none _ _ hv1 hv2 hv3]
    all_goals split <;> simp [threwError]

/-- Counterexample for C4 as stated: at the invalid bounds
`min = -1, max = 5`, the unsigned wrapper throws an error, but it is a
plain `Error`, not a `RangeError` (the source throws `new Error(...)`). -/
theorem claim4_counterexample :
    threwError (unbiasedRandomUint32 (some (-1)) (some 5) (drawsOf []) 1) = true ∧
    threwRangeError (unbiasedRandomUint32 (some (-1)) (some 5) (drawsOf []) 1) = false := by
  constructor <;> decide

/-- Witness for C4 (amended): the unsigned wrapper throws on an invalid
range and does not throw on a valid one. -/
theorem claim4_witness :
    threwError (unbiasedRandomUint32 (some (-1)) (some 5) (drawsOf []) 2) = true ∧
    threwError (unbiasedRandomUint32 (some 0) (some 2) (drawsOf []) 2) = false :=
  ⟨(claim4_validation.2.2.2.2.1 (some (-1)) (some 5) (by simp) (by norm_num) (drawsOf []) 2
      (drawsOf []) 2).2.1,
   claim4_validation.2.2.2.2.2 (some 0) (some 2) (by simp) (by norm_num) (by norm_num)
      (by norm_num) (drawsOf []) 2⟩

end UtilsRandom

namespace UtilsRandom

/-!
## Seed derivation

Embeds `seedToUint32` (src/src/numbers/seeded-generation seeding module).
A seed is a finite number or a string; strings enter the embedding as
their lists of UTF-16 char codes.  Numeric seeds are modelled as `ℤ` (the
library treats integer-valued numbers; `Number.isFinite` holds for all of
them, so the numeric branch applies).
-/

/-- A seed value: a (finite, integer-valued) number or a string given by
its char codes. -/
inductive Seed where
  | num (n : ℤ)
  | str (codes : List Nat)

/-- One iteration of the string-hash loop of `seedToUint32`:
`result = (result << 5) - result + char; result = result & result`. -/
def hashStep (r : ℤ) (c : Nat) : ℤ := jsToInt32 (jsShl r 5 - r + c)

/-- Embedding of `seedToUint32` (JS port of Java `String.hashCode`):
numeric seeds are converted by `seed >>> 0`; string seeds are folded
through `hashStep` starting from `0`. -/
def seedToUint32 : Seed → ℤ
  | .num n => ((u32 n : Nat) : ℤ)
  | .str cs => cs.foldl hashStep 0

/-- The hash step as the spec words it: `result * 31 + charCode`, wrapped
to signed 32-bit width at every step. -/
def specHashStep (r : ℤ) (c : Nat) : ℤ := jsToInt32 (r * 31 + c)

/-! ### Modular-arithmetic toolkit -/

lemma u32_lt (x : ℤ) : u32 x < 2 ^ 32 := by
  rw [u32]
  omega

lemma u32_cast (x : ℤ) : ((u32 x : Nat) : ℤ) = x % 2 ^ 32 := by
  rw [u32]
  omega

lemma asInt32_range (p : Nat) (h : p < 2 ^ 32) :
    -(2 ^ 31) ≤ asInt32 p ∧ asInt32 p < 2 ^ 31 := by
  rw [asInt32]
  split <;> omega

/-- The `(result << 5) - result + char` step computes `result * 31 + char`
up to 32-bit wraparound. -/
lemma hashStep_spec (r : ℤ) (c : Nat) : hashStep r c = specHashStep r c := by
  simp only [hashStep, specHashStep, jsToInt32, jsShl, asInt32, u32, Nat.shiftLeft_eq]
  split_ifs <;> omega

/-- C8.  `seedToUint32` maps every finite numeric seed to that number
reduced modulo `2^32` as an unsigned 32-bit value, and maps every string
seed (the empty string included) to the fold of
`result = result * 31 + charCode` over its char codes with the result
wrapped to signed 32-bit width at every step. -/
theorem claim8_seed_to_uint32 :
    (∀ n : ℤ, seedToUint32 (.num n) = n % 2 ^ 32 ∧
      0 ≤ seedToUint32 (.num n) ∧ seedToUint32 (.num n) < 2 ^ 32) ∧
    (∀ cs : List Nat, seedToUint32 (.str cs) = cs.foldl specHashStep 0) := by
  constructor
  · intro n
    have h := u32_cast n
    refine ⟨by simpa [seedToUint32] using h, ?_, ?_⟩
    · simp [seedToUint32]
    · have := u32_lt n
      simp only [seedToUint32]
      exact_mod_cast this
  · intro cs
    have hfun : hashStep = specHashStep :=
      funext fun r => funext fun c => hashStep_spec r c
    simp only [seedToUint32, hfun]

/-- C9.  For every string seed, `seedToUint32` returns the signed 32-bit
two's-complement interpretation of the hash — an integer in
`[-2^31, 2^31)` — and for some strings (e.g. `"zzzzzz"`) that value is
negative, so despite its name the function does not always return an
unsigned 32-bit integer. -/
theorem claim9_string_hash_signed :
    (∀ cs : List Nat, -(2 ^ 31) ≤ seedToUint32 (.str cs) ∧
      seedToUint32 (.str cs) < 2 ^ 31) ∧
    seedToUint32 (.str [122, 122, 122, 122, 122, 122]) < 0 := by
  constructor
  · intro cs
    suffices h : ∀ r : ℤ, -(2 ^ 31) ≤ r → r < 2 ^ 31 →
        -(2 ^ 31) ≤ cs.foldl hashStep r ∧ cs.foldl hashStep r < 2 ^ 31 by
      exact h 0 (by norm_num) (by norm_num)
    induction cs with
    | nil => intro r h1 h2; exact ⟨h1, h2⟩
    | cons c cs IH =>
      intro r h1 h2
      have hstep := asInt32_range (u32 (jsShl r 5 - r + c)) (u32_lt _)
      exact IH (hashStep r c) hstep.1 hstep.2
  · set_option maxRecDepth 4000 in decide

end UtilsRandom

namespace UtilsRandom

/-!
## Seeded generators

Embeds the seven concrete algorithms (alea.ts, part_006 for mulberry32 /
xor128 / the shared `SeededNumberGenerator`, tychei.ts, part_007 for
xorwow, part_008 for xorshift7, xor4096.ts).  Each `...Advance` is the
algorithm's internal `internalNextInt32` / `internalNextUint32` /
`internalNextFract32`, returning the raw value and the successor state;
each `...SeedState` is its `buildStateFromSeed`.  The warm-up calls
`this.nextFract32()` / `this.nextInt32()` made with no bounds hit the
wrappers' fast path and perform exactly one internal advance, so they are
modelled as one advance each.

Number-to-string coercions (`strseed += seed` for numeric seeds that fail
an integer test) use the decimal representation of the integer, as
`String(number)` produces for integers of this range.
-/

/-- Decimal char codes of a natural number, as `String(n)` yields. -/
def natToCodes (m : Nat) : List Nat := (Nat.toDigits 10 m).map Char.toNat

/-- Decimal char codes of an integer (code 45 is the minus sign). -/
def intToCodes (n : ℤ) : List Nat :=
  if n < 0 then 45 :: natToCodes n.natAbs else natToCodes n.toNat

/-- Char codes of `String(seed)`. -/
def seedCodes : Seed → List Nat
  | .num n => intToCodes n
  | .str cs => cs

/-- Generic state iteration: run `advance` `n` times, keeping the state. -/
def iterAdvance {σ α : Type} (f : σ → α × σ) : Nat → σ → σ
  | 0, st => st
  | n + 1, st => iterAdvance f n (f st).2

/-!
### Alea (src/src/numbers/seeded-generation/alea.ts)
-/

/-- State of the Alea generator: carry `c` and three fractional
accumulators. -/
structure AleaState where
  c : ℤ
  s0 : ℚ
  s1 : ℚ
  s2 : ℚ

/-- The JS expression `t | 0` applied to a (possibly fractional) number:
truncate toward zero, then wrap to signed 32 bits. -/
def jsToInt32Rat (q : ℚ) : ℤ := asInt32 (u32 (ratTrunc q))

/-- Embedding of `AleaNumberGenerator.internalNextFract32` (alea.ts,
lines 75-85). -/
def aleaAdvance (st : AleaState) : ℚ × AleaState :=
  let t : ℚ := 2091639 * st.s0 + (st.c : ℚ) / 2 ^ 32
  let c := jsToInt32Rat t
  let s2 := t - (c : ℚ)
  (s2, ⟨c, st.s1, st.s2, s2⟩)

/-- One iteration of the loop inside Baagøe's `mash` for one char code;
`n` is the closure variable (a JS double, kept as an exact rational: the
multiplications below round in IEEE doubles, but every property used here
only depends on the `>>> 0` shape of the results). -/
def mashChar (n : ℚ) (code : Nat) : ℚ :=
  let n1 := n + code
  let h := 0.02519603282416938 * n1
  let n2 : Nat := u32 (ratTrunc h)
  let h2 := h - n2
  let h3 := h2 * n2
  let n3 : Nat := u32 (ratTrunc h3)
  let h4 := h3 - n3
  (n3 : ℚ) + h4 * 2 ^ 32

/-- The closure variable after mashing a string. -/
def mashAccum (n : ℚ) (codes : List Nat) : ℚ := codes.foldl mashChar n

/-- The value returned by `mash`: `(n >>> 0) * 2^-32`. -/
def mashValue (n : ℚ) : ℚ := ((u32 (ratTrunc n) : Nat) : ℚ) / 2 ^ 32

/-- A call `mash(data)`: returns the mashed value and the new closure
variable. -/
def mash (n : ℚ) (codes : List Nat) : ℚ × ℚ :=
  let n2 := mashAccum n codes
  (mashValue n2, n2)

/-- Embedding of `AleaNumberGenerator.buildStateFromSeed` (alea.ts, lines
87-115): three mashes of a space initialize the accumulators, three
mashes of the seed adjust them with wrap-around into `[0, 1)`. -/
def aleaSeedState (s : Seed) : AleaState :=
  let n0 : ℚ := ((0xefc8249d : Nat) : ℚ)
  let m1 := mash n0 [32]
  let m2 := mash m1.2 [32]
  let m3 := mash m2.2 [32]
  let d1 := mash m3.2 (seedCodes s)
  let s0 := m1.1 - d1.1
  let s0 := if s0 < 0 then s0 + 1 else s0
  let d2 := mash d1.2 (seedCodes s)
  let s1 := m2.1 - d2.1
  let s1 := if s1 < 0 then s1 + 1 else s1
  let d3 := mash d2.2 (seedCodes s)
  let s2 := m3.1 - d3.1
  let s2 := if s2 < 0 then s2 + 1 else s2
  ⟨1, s0, s1, s2⟩

/-!
### Mulberry32 (src/unnamed/part_006, lines 22-69)
-/

/-- State of Mulberry32: a single seed word (a JS number; the `+=` in the
source is plain number addition, so the field is an unbounded integer). -/
structure Mulberry32State where
  seed : ℤ

/-- Embedding of `Mulberry32NumberGenerator.internalNextUint32`. -/
def mulberry32Advance (st : Mulberry32State) : Nat × Mulberry32State :=
  let seed := st.seed + 0x6d2b79f5
  let t1 := jsImul (jsXor seed (jsShrU seed 15)) (jsOr seed 1)
  let t2 := jsXor t1 (t1 + jsImul (jsXor t1 (jsShrU t1 7)) (jsOr t1 61))
  (u32 (jsXor t2 (jsShrU t2 14)), ⟨seed⟩)

/-- Embedding of `Mulberry32NumberGenerator.buildStateFromSeed`. -/
def mulberry32SeedState (s : Seed) : Mulberry32State := ⟨seedToUint32 s⟩

/-!
### Tyche-i (src/src/numbers/seeded-generation/tychei.ts)
-/

/-- State of Tyche-i: four signed 32-bit words. -/
structure TycheiState where
  a : ℤ
  b : ℤ
  c : ℤ
  d : ℤ

/-- Embedding of `TycheiNumberGenerator.internalNextInt32`. -/
def tycheiAdvance (st : TycheiState) : ℤ × TycheiState :=
  let b := jsXor (jsXor (jsShl st.b 25) (jsShrU st.b 7)) st.c
  let c := jsToInt32 (st.c - st.d)
  let d := jsXor (jsXor (jsShl st.d 24) (jsShrU st.d 8)) st.a
  let a := jsToInt32 (st.a - b)
  let b2 := jsXor (jsXor (jsShl b 20) (jsShrU b 12)) c
  let c2 := jsToInt32 (c - d)
  let d2 := jsXor (jsXor (jsShl d 16) (jsShrU c2 16)) a
  let a2 := jsToInt32 (a - b2)
  (a2, ⟨a2, b2, c2, d2⟩)

/-- The seed-mixing loop of Tyche-i: xor a char code (0 beyond the string)
into `b`, then advance; repeated `strseed.length + 20` times. -/
def tycheiMix (codes : List Nat) : Nat → Nat → TycheiState → TycheiState
  | _, 0, st => st
  | k, rem + 1, st =>
    let st1 : TycheiState := {st with b := jsXor st.b (codes.getD k 0)}
    tycheiMix codes (k + 1) rem (tycheiAdvance st1).2

/-- Embedding of `TycheiNumberGenerator.buildStateFromSeed`.  A numeric
seed (always an integer here) passes the `seed === Math.floor(numberSeed)`
test and is split across `a` and `b`; a string seed is mixed in one char
at a time. -/
def tycheiSeedState (s : Seed) : TycheiState :=
  let st0 : TycheiState := ⟨0, 0, jsToInt32 2654435769, 1367130551⟩
  match s with
  | .num n =>
    tycheiMix [] 0 20 {st0 with a := jsToInt32 (Int.tdiv n (2 ^ 32)), b := jsToInt32 n}
  | .str cs => tycheiMix cs 0 (cs.length + 20) st0

/-!
### Xor128 (src/unnamed/part_006, lines 70-160)
-/

/-- State of xor128: four signed 32-bit words. -/
structure Xor128State where
  w : ℤ
  x : ℤ
  y : ℤ
  z : ℤ

/-- Embedding of `Xor128NumberGenerator.internalNextInt32`. -/
def xor128Advance (st : Xor128State) : ℤ × Xor128State :=
  let t := jsXor st.x (jsShl st.x 11)
  let w := jsXor st.w (jsXor (jsXor (jsShrU st.w 19) t) (jsShrU t 8))
  (w, ⟨w, st.y, st.z, st.w⟩)

/-- The seed-mixing loop of xor128: xor a char code (0 beyond the string)
into `x`, then advance (`this.nextFract32()` on the fast path); repeated
`strseed.length + 64` times. -/
def xor128Mix (codes : List Nat) : Nat → Nat → Xor128State → Xor128State
  | _, 0, st => st
  | k, rem + 1, st =>
    let st1 : Xor128State := {st with x := jsXor st.x (codes.getD k 0)}
    xor128Mix codes (k + 1) rem (xor128Advance st1).2

/-- Embedding of `Xor128NumberGenerator.buildStateFromSeed`.  A numeric
seed passes the `seed === (numberSeed | 0)` test exactly when it is a
signed 32-bit integer; otherwise it is coerced to its decimal string. -/
def xor128SeedState (s : Seed) : Xor128State :=
  match s with
  | .num n =>
    if n = jsToInt32 n then xor128Mix [] 0 64 ⟨0, n, 0, 0⟩
    else xor128Mix (intToCodes n) 0 ((intToCodes n).length + 64) ⟨0, 0, 0, 0⟩
  | .str cs => xor128Mix cs 0 (cs.length + 64) ⟨0, 0, 0, 0⟩

/-!
### XorWow (src/unnamed/part_007)
-/

/-- State of xorwow: five xorshift words plus the Weyl counter `d`. -/
structure XorWowState where
  d : ℤ
  v : ℤ
  w : ℤ
  x : ℤ
  y : ℤ
  z : ℤ

/-- Embedding of `XorWowNumberGenerator.internalNextInt32`. -/
def xorWowAdvance (st : XorWowState) : ℤ × XorWowState :=
  let t := jsXor st.x (jsShrU st.x 2)
  let d := jsToInt32 (st.d + 362437)
  let v := jsXor (jsXor st.v (jsShl st.v 4)) (jsXor t (jsShl t 1))
  (jsToInt32 (d + v), ⟨d, v, st.v, st.y, st.z, st.w⟩)

/-- The seed-mixing loop of xorwow: xor a char code into `x`; right after
the last char (`k == strseed.length`) initialize the Weyl counter from
`x`; then advance.  Repeated `strseed.length + 64` times. -/
def xorWowMix (codes : List Nat) : Nat → Nat → XorWowState → XorWowState
  | _, 0, st => st
  | k, rem + 1, st =>
    let st1 : XorWowState := {st with x := jsXor st.x (codes.getD k 0)}
    let st2 : XorWowState :=
      if k = codes.length then {st1 with d := jsXor (jsShl st1.x 10) (jsShrU st1.x 4)}
      else st1
    xorWowMix codes (k + 1) rem (xorWowAdvance st2).2

/-- Embedding of `XorWowNumberGenerator.buildStateFromSeed`. -/
def xorWowSeedState (s : Seed) : XorWowState :=
  match s with
  | .num n =>
    if n = jsToInt32 n then xorWowMix [] 0 64 ⟨0, 0, 0, n, 0, 0⟩
    else xorWowMix (intToCodes n) 0 ((intToCodes n).length + 64) ⟨0, 0, 0, 0, 0, 0⟩
  | .str cs => xorWowMix cs 0 (cs.length + 64) ⟨0, 0, 0, 0, 0, 0⟩

/-!
### XorShift7 (src/unnamed/part_008)
-/

/-- State of xorshift7: an 8-word circular buffer and a cursor. -/
structure XorShift7State where
  X : List ℤ
  i : Nat

/-- Embedding of `XorShift7NumberGenerator.internalNextInt32`. -/
def xorShift7Advance (st : XorShift7State) : ℤ × XorShift7State :=
  let t0 := st.X.getD st.i 0
  let t1 := jsXor t0 (jsShrU t0 7)
  let v0 := jsXor t1 (jsShl t1 24)
  let t2 := st.X.getD ((st.i + 1) &&& 7) 0
  let v1 := jsXor v0 (jsXor t2 (jsShrU t2 10))
  let t3 := st.X.getD ((st.i + 3) &&& 7) 0
  let v2 := jsXor v1 (jsXor t3 (jsShrU t3 3))
  let t4 := st.X.getD ((st.i + 4) &&& 7) 0
  let v3 := jsXor v2 (jsXor t4 (jsShl t4 7))
  let t5 := st.X.getD ((st.i + 7) &&& 7) 0
  let t6 := jsXor t5 (jsShl t5 13)
  let v4 := jsXor v3 (jsXor t6 (jsShl t6 9))
  (v4, ⟨st.X.set st.i v4, (st.i + 1) &&& 7⟩)

/-- The string-seeding fold of xorshift7:
`X[j & 7] = (X[j & 7] << 15) ^ ((charCode(j) + X[(j + 1) & 7]) << 13)`.
A JS array slot that has never been assigned reads as `undefined`:
`undefined << 15` is `0`, and `charCode + undefined` is `NaN`, whose
`<< 13` is `0` — so both terms vanish on unassigned slots, which is why
the reads go through `List.get?`.  Assigning the slot one past the end
appends. -/
def xs7Fold (codes : List Nat) : Nat → Nat → List ℤ → List ℤ
  | _, 0, X => X
  | j, rem + 1, X =>
    let idx := j &&& 7
    let a : ℤ :=
      match X.get? idx with
      | some xv => jsShl xv 15
      | none => 0
    let b : ℤ :=
      match X.get? ((j + 1) &&& 7) with
      | some xv => jsShl (codes.getD j 0 + xv) 13
      | none => 0
    let newV := jsXor a b
    let X2 := if idx < X.length then X.set idx newV else X ++ [newV]
    xs7Fold codes (j + 1) rem X2

/-- Embedding of `XorShift7NumberGenerator.buildStateFromSeed`: seed the
buffer (one int32 word, or the string fold), pad it to 8 words, replace an
all-zero buffer by one with `X[7] = -1`, then discard 256 advances. -/
def xorShift7SeedState (s : Seed) : XorShift7State :=
  let X0 : List ℤ :=
    match s with
    | .num n =>
      if n = jsToInt32 n then [n]
      else xs7Fold (intToCodes n) 0 (intToCodes n).length []
    | .str cs => xs7Fold cs 0 cs.length []
  let X1 := X0 ++ List.replicate (8 - X0.length) 0
  let X2 := if X1.all (fun xv => xv == 0) then X1.set 7 (-1) else X1
  iterAdvance xorShift7Advance 256 ⟨X2, 0⟩

/-!
### Xor4096 (src/src/numbers/seeded-generation/xor4096.ts)
-/

/-- State of xor4096: a 128-word circular buffer, a cursor, and the Weyl
word `w`. -/
structure Xor4096State where
  X : List ℤ
  i : Nat
  w : ℤ

/-- Embedding of `Xor4096NumberGenerator.internalNextInt32`. -/
def xor4096Advance (st : Xor4096State) : ℤ × Xor4096State :=
  let w := jsToInt32 (st.w + 0x61c88647)
  let v0 := st.X.getD ((st.i + 34) &&& 127) 0
  let i := (st.i + 1) &&& 127
  let t0 := st.X.getD i 0
  let v1 := jsXor v0 (jsShl v0 13)
  let t1 := jsXor t0 (jsShl t0 17)
  let v2 := jsXor v1 (jsShrU v1 15)
  let t2 := jsXor t1 (jsShrU t1 12)
  let v3 := jsXor v2 t2
  (jsToInt32 (v3 + jsXor w (jsShrU w 16)), ⟨st.X.set i v3, i, w⟩)

/-- Accumulator of the xor4096 seeding loop: the shuffle word `v`, the
Weyl word `w`, the buffer `X` under construction, and the running count
`i` of trailing zero entries written. -/
structure X4InitAcc where
  v : ℤ
  w : ℤ
  X : List ℤ
  i : Nat

/-- The xor4096 seeding loop, iterating `j` from `-32` (here `j32 = j + 32`
from `0`): mix one char code into `v` (cycling through the string), start
the Weyl word at `j = 0`, shuffle `v`, and for `j ≥ 0` write
`X[j & 127] ^= v + w` while counting zero entries. -/
def xor4096InitLoop (codes : List Nat) : Nat → Nat → X4InitAcc → X4InitAcc
  | _, 0, acc => acc
  | j32, rem + 1, acc =>
    let v0 := if codes.isEmpty then acc.v
      else jsXor acc.v (codes.getD (j32 % codes.length) 0)
    let w0 := if j32 = 32 then v0 else acc.w
    let v1 := jsXor v0 (jsShl v0 10)
    let v2 := jsXor v1 (jsShrU v1 15)
    let v3 := jsXor v2 (jsShl v2 4)
    let v4 := jsXor v3 (jsShrU v3 13)
    let acc2 : X4InitAcc :=
      if 32 ≤ j32 then
        let j := j32 - 32
        let w1 := jsToInt32 (w0 + 0x61c88647)
        let idx := j &&& 127
        let t := jsXor (acc.X.getD idx 0) (v4 + w1)
        let X2 := if idx < acc.X.length then acc.X.set idx t else acc.X ++ [t]
        ⟨v4, w1, X2, if t = 0 then acc.i + 1 else 0⟩
      else ⟨v4, w0, acc.X, acc.i⟩
    xor4096InitLoop codes (j32 + 1) rem acc2

/-- The 512 discarded warm-up rounds of xor4096 (unrolled in the source;
the Weyl word is not advanced while warming up). -/
def xor4096Warm : Nat → List ℤ → Nat → List ℤ × Nat
  | 0, X, i => (X, i)
  | rem + 1, X, i =>
    let v0 := X.getD ((i + 34) &&& 127) 0
    let i2 := (i + 1) &&& 127
    let t0 := X.getD i2 0
    let v1 := jsXor v0 (jsShl v0 13)
    let t1 := jsXor t0 (jsShl t0 17)
    let v2 := jsXor v1 (jsShrU v1 15)
    let t2 := jsXor t1 (jsShrU t1 12)
    xor4096Warm rem (X.set i2 (jsXor v2 t2)) i2

/-- Embedding of `Xor4096NumberGenerator.buildStateFromSeed`.  An int32
numeric seed initializes `v`; other seeds are stringified with a trailing
NUL and mixed in one char at a time; after the init loop an all-zero
buffer is patched non-zero, and 512 advances are discarded. -/
def xor4096SeedState (s : Seed) : Xor4096State :=
  let p : ℤ × List Nat × Nat :=
    match s with
    | .num n =>
      if n = jsToInt32 n then (n, [], 128)
      else (0, intToCodes n ++ [0], max 128 ((intToCodes n).length + 1))
    | .str cs => (0, cs ++ [0], max 128 (cs.length + 1))
  let acc := xor4096InitLoop p.2.1 0 (p.2.2 + 32) ⟨p.1, 0, [], 0⟩
  let fixIdx := (if p.2.1.isEmpty then 0 else p.2.1.length) &&& 127
  let X := if acc.i ≥ 128 then acc.X.set fixIdx (-1) else acc.X
  let r := xor4096Warm (4 * 128) X 127
  ⟨r.1, r.2, acc.w⟩

end UtilsRandom

namespace UtilsRandom

/-!
## The shared lifecycle (src/unnamed/part_006, lines 161-223)

`SeededNumberGenerator`: construction either clones a supplied state or
builds a state from a seed; `getState()` returns a clone of the current
state.  The `cloneState` implementations (`{...state}` spreads and the
`[...X]` array copy) rebuild the state structurally; on the value level of
the embedding this is a field-by-field rebuild.
-/

/-- The seven concrete algorithms. -/
inductive Alg where
  | alea
  | mulberry32
  | tychei
  | xor128
  | xorWow
  | xorShift7
  | xor4096

/-- The state type of each algorithm. -/
def StateOf : Alg → Type
  | .alea => AleaState
  | .mulberry32 => Mulberry32State
  | .tychei => TycheiState
  | .xor128 => Xor128State
  | .xorWow => XorWowState
  | .xorShift7 => XorShift7State
  | .xor4096 => Xor4096State

/-- The raw output type of each algorithm (a fraction for Alea, an
unsigned word for Mulberry32, a signed word for the rest). -/
def OutOf : Alg → Type
  | .alea => ℚ
  | .mulberry32 => Nat
  | _ => ℤ

/-- The internal advance of each algorithm. -/
def advanceOf : (a : Alg) → StateOf a → OutOf a × StateOf a
  | .alea => aleaAdvance
  | .mulberry32 => mulberry32Advance
  | .tychei => tycheiAdvance
  | .xor128 => xor128Advance
  | .xorWow => xorWowAdvance
  | .xorShift7 => xorShift7Advance
  | .xor4096 => xor4096Advance

/-- The seed-mixing function (`buildStateFromSeed`) of each algorithm. -/
def buildStateFromSeed : (a : Alg) → Seed → StateOf a
  | .alea => aleaSeedState
  | .mulberry32 => mulberry32SeedState
  | .tychei => tycheiSeedState
  | .xor128 => xor128SeedState
  | .xorWow => xorWowSeedState
  | .xorShift7 => xorShift7SeedState
  | .xor4096 => xor4096SeedState

/-- The `cloneState` of each algorithm: a structural rebuild of the state
(`{...state}`, with `[...X]` for the array-backed states). -/
def cloneState : (a : Alg) → StateOf a → StateOf a
  | .alea, st => ⟨st.c, st.s0, st.s1, st.s2⟩
  | .mulberry32, st => ⟨st.seed⟩
  | .tychei, st => ⟨st.a, st.b, st.c, st.d⟩
  | .xor128, st => ⟨st.w, st.x, st.y, st.z⟩
  | .xorWow, st => ⟨st.d, st.v, st.w, st.x, st.y, st.z⟩
  | .xorShift7, st => ⟨st.X, st.i⟩
  | .xor4096, st => ⟨st.X, st.i, st.w⟩

/-- Construction options: a seed, or an exported state (the constructor's
`options.seed` / `options.state`). -/
inductive GenOptions (a : Alg) where
  | seed (s : Seed)
  | state (st : StateOf a)

/-- The `SeededNumberGenerator` constructor: clone a supplied state, or
mix a supplied seed. -/
def construct (a : Alg) : GenOptions a → StateOf a
  | .seed s => buildStateFromSeed a s
  | .state st => cloneState a st

/-- `getState()`: a clone of the current state. -/
def getState (a : Alg) (st : StateOf a) : StateOf a := cloneState a st

/-- The raw output sequence of length `n` produced by advancing from a
state. -/
def runOutputs (a : Alg) : Nat → StateOf a → List (OutOf a)
  | 0, _ => []
  | n + 1, st =>
    let r := advanceOf a st
    r.1 :: runOutputs a n r.2

/-- C5.  For every algorithm among the seven seeded generators, every
seed, and every length `N`, two generators constructed from equal seeds
produce bit-identical output sequences of length `N`. -/
theorem claim5_determinism (a : Alg) (s : Seed) (g1 g2 : StateOf a)
    (h1 : g1 = construct a (.seed s)) (h2 : g2 = construct a (.seed s)) (n : Nat) :
    runOutputs a n g1 = runOutputs a n g2 := by
  subst h1
  subst h2
  rfl

/-- Witness for C5: two xor128 generators built from the seed `123`
produce the same first five outputs. -/
theorem claim5_witness :
    runOutputs .xor128 5 (construct .xor128 (.seed (.num 123))) =
      runOutputs .xor128 5 (construct .xor128 (.seed (.num 123))) :=
  claim5_determinism .xor128 (.num 123) _ _ rfl rfl 5

/-- C6.  For every algorithm and every seed, a generator constructed from
the first generator's `getState()` export produces, in lockstep, exactly
the outputs the original generator produces; and restoring from a state
adopts it verbatim (no seed-mixing is involved). -/
theorem claim6_state_roundtrip (a : Alg) (s : Seed) (n : Nat) :
    runOutputs a n (construct a (.state (getState a (construct a (.seed s))))) =
      runOutputs a n (construct a (.seed s)) ∧
    ∀ st : StateOf a, construct a (.state st) = st := by
  have hclone : ∀ st : StateOf a, cloneState a st = st := by
    cases a <;> intro st <;> rfl
  constructor
  · have h1 : construct a (.state (getState a (construct a (.seed s)))) =
        construct a (.seed s) := by
      show cloneState a (cloneState a (construct a (.seed s))) = construct a (.seed s)
      rw [hclone, hclone]
    rw [h1]
  · intro st
    exact hclone st

end UtilsRandom

namespace UtilsRandom

/-!
## The Alea state invariant (C10)
-/

/-- The Alea invariant: the accumulators lie in `[0, 1)` and the carry is
a nonnegative integer at most `2091639`. -/
def AleaInv (st : AleaState) : Prop :=
  0 ≤ st.c ∧ st.c ≤ 2091639 ∧
  0 ≤ st.s0 ∧ st.s0 < 1 ∧ 0 ≤ st.s1 ∧ st.s1 < 1 ∧ 0 ≤ st.s2 ∧ st.s2 < 1

/-- The value a `mash` call returns lies in `[0, 1)` (it is an unsigned
32-bit word scaled by `2^-32`). -/
lemma mashValue_mem (n : ℚ) : 0 ≤ mashValue n ∧ mashValue n < 1 := by
  rw [mashValue]
  constructor
  · positivity
  · rw [div_lt_one (by positivity)]
    have h := u32_lt (ratTrunc n)
    exact_mod_cast h

/-- The seeding adjustment `s -= mash(seed); if (s < 0) s += 1` keeps a
difference of two `[0, 1)` values inside `[0, 1)`. -/
lemma sub_fix_mem (x y : ℚ) (hx0 : 0 ≤ x) (hx1 : x < 1) (hy0 : 0 ≤ y) (hy1 : y < 1) :
    0 ≤ (if x - y < 0 then x - y + 1 else x - y) ∧
      (if x - y < 0 then x - y + 1 else x - y) < 1 := by
  split <;> constructor <;> linarith

lemma aleaSeedState_inv (s : Seed) : AleaInv (aleaSeedState s) := by
  have h1 := mashValue_mem (mashAccum ((0xefc8249d : Nat) : ℚ) [32])
  have h2 := mashValue_mem (mashAccum (mashAccum ((0xefc8249d : Nat) : ℚ) [32]) [32])
  have h3 := mashValue_mem
    (mashAccum (mashAccum (mashAccum ((0xefc8249d : Nat) : ℚ) [32]) [32]) [32])
  simp only [aleaSeedState, mash, AleaInv]
  refine ⟨by norm_num, by norm_num, ?_, ?_, ?_, ?_, ?_, ?_⟩
  · exact (sub_fix_mem _ _ h1.1 h1.2 (mashValue_mem _).1 (mashValue_mem _).2).1
  · exact (sub_fix_mem _ _ h1.1 h1.2 (mashValue_mem _).1 (mashValue_mem _).2).2
  · exact (sub_fix_mem _ _ h2.1 h2.2 (mashValue_mem _).1 (mashValue_mem _).2).1
  · exact (sub_fix_mem _ _ h2.1 h2.2 (mashValue_mem _).1 (mashValue_mem _).2).2
  · exact (sub_fix_mem _ _ h3.1 h3.2 (mashValue_mem _).1 (mashValue_mem _).2).1
  · exact (sub_fix_mem _ _ h3.1 h3.2 (mashValue_mem _).1 (mashValue_mem _).2).2


/-- One Alea advance from an invariant state: the new state satisfies the
invariant, and the returned fraction lies in `[0, 1)`. -/
lemma aleaAdvance_mem (st : AleaState) (h : AleaInv st) :
    AleaInv (aleaAdvance st).2 ∧ 0 ≤ (aleaAdvance st).1 ∧ (aleaAdvance st).1 < 1 := by
  obtain ⟨hc0, hc1, hs00, hs01, hs10, hs11, hs20, hs21⟩ := h
  have hcq0 : (0 : ℚ) ≤ (st.c : ℚ) := by exact_mod_cast hc0
  have hcq1 : (st.c : ℚ) ≤ 2091639 := by exact_mod_cast hc1
  set t : ℚ := 2091639 * st.s0 + (st.c : ℚ) / 2 ^ 32 with ht
  have ht0 : 0 ≤ t := by
    have ha : 0 ≤ 2091639 * st.s0 := by nlinarith
    have hb : (0 : ℚ) ≤ (st.c : ℚ) / 2 ^ 32 := by positivity
    rw [ht]
    linarith
  have ht1 : t < 2091640 := by
    have ha : 2091639 * st.s0 < 2091639 := by nlinarith
    have hb : (st.c : ℚ) / 2 ^ 32 ≤ 2091639 / 2 ^ 32 := by gcongr
    have hcq : (2091639 : ℚ) / 2 ^ 32 < 1 := by norm_num
    rw [ht]
    linarith
  have hfl0 : 0 ≤ ⌊t⌋ := Int.floor_nonneg.mpr ht0
  have hfl1 : ⌊t⌋ < 2091640 := Int.floor_lt.mpr (by exact_mod_cast ht1)
  have hc2 : jsToInt32Rat t = ⌊t⌋ := by
    rw [jsToInt32Rat, ratTrunc, if_pos ht0, u32, asInt32]
    split <;> omega
  have hlow : ((⌊t⌋ : ℤ) : ℚ) ≤ t := Int.floor_le t
  have hhigh : t < ((⌊t⌋ : ℤ) : ℚ) + 1 := Int.lt_floor_add_one t
  have hout0 : 0 ≤ t - ((⌊t⌋ : ℤ) : ℚ) := by linarith
  have hout1 : t - ((⌊t⌋ : ℤ) : ℚ) < 1 := by linarith
  have hshape : aleaAdvance st =
      (t - ((⌊t⌋ : ℤ) : ℚ), ⟨⌊t⌋, st.s1, st.s2, t - ((⌊t⌋ : ℤ) : ℚ)⟩) := by
    simp only [aleaAdvance, ← ht, hc2]
  rw [hshape]
  have hfl2 : ⌊t⌋ ≤ 2091639 := by omega
  exact ⟨⟨hfl0, hfl2, hs10, hs11, hs20, hs21, hout0, hout1⟩, hout0, hout1⟩

/-- Every state reached from a seeded state satisfies the invariant. -/
lemma aleaIter_inv (n : Nat) : ∀ st : AleaState, AleaInv st →
    AleaInv (iterAdvance aleaAdvance n st) := by
  induction n with
  | zero => intro st h; exact h
  | succ n IH =>
    intro st h
    exact IH (aleaAdvance st).2 (aleaAdvance_mem st h).1

/-- The raw fraction stream of an Alea generator: draw `i` is the output
of the `(i+1)`-st advance from the current state (the stateful closure
`() => this.internalNextFract32()` of `nextFract32`). -/
def aleaFractStream (st : AleaState) : Nat → ℚ :=
  fun i => (aleaAdvance (iterAdvance aleaAdvance i st)).1

/-- The `nextFract32` method of the Alea generator: the `fract32` wrapper
over the generator's own raw stream. -/
def aleaNextFract32 (st : AleaState) (minInclusive maxExclusive : Option ℚ)
    (fuel : Nat) : Except JsError (Option (ℚ × Nat)) :=
  unbiasedRandomFract32 minInclusive maxExclusive (aleaFractStream st) fuel

/-- C10.  For every seed and any number of advances, the reached Alea
state has accumulators `s0, s1, s2` in `[0, 1)` and an integer carry `c`
with `0 ≤ c ≤ 2091639`; each advance preserves this invariant, and from
an invariant state `internalNextFract32` — and hence `nextFract32` with
both bounds omitted — returns a value in `[0, 1)`. -/
theorem claim10_alea_invariant :
    (∀ s : Seed, AleaInv (aleaSeedState s)) ∧
    (∀ st : AleaState, AleaInv st → AleaInv (aleaAdvance st).2) ∧
    (∀ (s : Seed) (n : Nat), AleaInv (iterAdvance aleaAdvance n (aleaSeedState s))) ∧
    (∀ st : AleaState, AleaInv st → 0 ≤ (aleaAdvance st).1 ∧ (aleaAdvance st).1 < 1) ∧
    (∀ (s : Seed) (n fuel : Nat), ∃ q : ℚ,
      aleaNextFract32 (iterAdvance aleaAdvance n (aleaSeedState s)) none none fuel =
        .ok (some (q, 1)) ∧ 0 ≤ q ∧ q < 1) := by
  refine ⟨aleaSeedState_inv, fun st h => (aleaAdvance_mem st h).1,
    fun s n => aleaIter_inv n _ (aleaSeedState_inv s), fun st h => (aleaAdvance_mem st h).2,
    ?_⟩
  intro s n fuel
  refine ⟨aleaFractStream (iterAdvance aleaAdvance n (aleaSeedState s)) 0, rfl, ?_⟩
  have hinv := aleaIter_inv n _ (aleaSeedState_inv s)
  exact (aleaAdvance_mem _ hinv).2

/-- Witness for C10: a concrete invariant state, preserved by one
advance. -/
theorem claim10_witness :
    AleaInv (⟨1, 0, 0, 0⟩ : AleaState) ∧ AleaInv (aleaAdvance ⟨1, 0, 0, 0⟩).2 :=
  ⟨by refine ⟨by norm_num, by norm_num, ?_, ?_, ?_, ?_, ?_, ?_⟩ <;> norm_num,
   claim10_alea_invariant.2.1 ⟨1, 0, 0, 0⟩
     (by refine ⟨by norm_num, by norm_num, ?_, ?_, ?_, ?_, ?_, ?_⟩ <;> norm_num)⟩

end UtilsRandom
